import Mathlib

/-!
Verification development for the BU course scraper (src/scraper/main.py).

The Python source is shallowly embedded below.  Strings are modelled as
`String` / `List Char`; the Python string operations used by the scraper
(`str.replace`, `str.strip`, `str.split`, `str.splitlines`, `str.lower`,
substring tests, `re.sub('<[^>]+>', ...)`, `int(...)` success) are
re-implemented as structurally recursive Lean functions so that concrete
instances reduce by `rfl`/`decide`.  Loops whose iteration count is bounded
by the input length take an explicit fuel argument equal to that bound.
Fallible Python code (the `TypeError`/`AttributeError`/`IndexError` paths)
is modelled with `Except Unit`.
-/

/-- ASCII decimal digit, i.e. a character `c` with `int(c)` succeeding
(the model is restricted to ASCII text). -/
def isAsciiDigit (c : Char) : Bool := '0' ≤ c && c ≤ '9'

/-- ASCII model of Python `str.lower` applied to one character. -/
def pyToLower (c : Char) : Char :=
  if 'A' ≤ c && c ≤ 'Z' then Char.ofNat (c.toNat + 32) else c

/-- Characters stripped by Python `str.strip()` (ASCII whitespace). -/
def isPySpace (c : Char) : Bool :=
  c = ' ' || c = '\t' || c = '\n' || c = '\r' || c = '\x0b' || c = '\x0c'

/-- Python `str.strip()` on a character list. -/
def pyStrip (l : List Char) : List Char :=
  ((l.dropWhile isPySpace).reverse.dropWhile isPySpace).reverse

/-- If `pat` is a prefix of `s`, return the remainder of `s` after `pat`. -/
def dropPref : List Char → List Char → Option (List Char)
  | [], s => some s
  | _ :: _, [] => Option.none
  | a :: as, b :: bs => if a = b then dropPref as bs else Option.none

/-- Python `pat in s` (substring containment) on character lists. -/
def isSubL (pat : List Char) : List Char → Bool
  | [] => pat.isEmpty
  | c :: rest => (dropPref pat (c :: rest)).isSome || isSubL pat rest

/-- One pass of Python `s.replace(pat, repl)`: leftmost, non-overlapping,
replacements are not rescanned.  `fuel ≥ s.length` suffices, since
every step consumes at least one character when `pat` is nonempty. -/
def pyReplaceGo (pat repl : List Char) : Nat → List Char → List Char
  | _, [] => []
  | 0, s => s
  | fuel + 1, c :: rest =>
    match dropPref pat (c :: rest) with
    | some s2 => repl ++ pyReplaceGo pat repl fuel s2
    | Option.none => c :: pyReplaceGo pat repl fuel rest

/-- Python `s.replace(pat, repl)` (for nonempty `pat`). -/
def pyReplaceL (pat repl s : List Char) : List Char :=
  pyReplaceGo pat repl s.length s

/-- Characters on which Python `str.splitlines` breaks. -/
def isLineBreakChar (c : Char) : Bool :=
  c = '\n' || c = '\r' || c = '\x0b' || c = '\x0c' ||
  c = '\x1c' || c = '\x1d' || c = '\x1e' || c = '\x85' ||
  c = '\u2028' || c = '\u2029'

/-- Python `str.splitlines` (accumulator holds the current line reversed);
`"\r\n"` counts as a single break, a trailing break adds no empty line. -/
def pySplitlinesGo : List Char → List Char → List (List Char)
  | acc, [] => if acc.isEmpty then [] else [acc.reverse]
  | acc, '\r' :: '\n' :: rest => acc.reverse :: pySplitlinesGo [] rest
  | acc, c :: rest =>
    if isLineBreakChar c then acc.reverse :: pySplitlinesGo [] rest
    else pySplitlinesGo (c :: acc) rest

/-- Python `str.splitlines` on a character list. -/
def pySplitlines (s : List Char) : List (List Char) := pySplitlinesGo [] s

/-- Python `s.split(sep)` for nonempty `sep`; fuel as in `pyReplaceGo`. -/
def pySplitGo (sep : List Char) : Nat → List Char → List Char → List (List Char)
  | _, acc, [] => [acc.reverse]
  | 0, acc, s => [acc.reverse ++ s]
  | fuel + 1, acc, c :: rest =>
    match dropPref sep (c :: rest) with
    | some s2 => acc.reverse :: pySplitGo sep fuel [] s2
    | Option.none => pySplitGo sep fuel (c :: acc) rest

/-- Python `s.split(sep)` on character lists (nonempty separator). -/
def pySplitSep (sep s : List Char) : List (List Char) :=
  pySplitGo sep s.length [] s

/-- After seeing `'<'` and one non-`'>'` character, scan for the closing
`'>'`; returns the remainder after it. -/
def findGtRest : List Char → Option (List Char)
  | [] => Option.none
  | c :: rest => if c = '>' then some rest else findGtRest rest

/-- Attempt to match the regex `<[^>]+>` starting right after a `'<'`:
at least one non-`'>'` character and then `'>'`. -/
def findTag : List Char → Option (List Char)
  | [] => Option.none
  | c :: rest => if c = '>' then Option.none else findGtRest rest

/-- Python `re.sub('<[^>]+>', '', s)`: remove every leftmost match. -/
def stripTagsGo : Nat → List Char → List Char
  | _, [] => []
  | 0, s => s
  | fuel + 1, c :: rest =>
    if c = '<' then
      match findTag rest with
      | some r => stripTagsGo fuel r
      | Option.none => c :: stripTagsGo fuel rest
    else c :: stripTagsGo fuel rest

/-- `re.sub('<[^>]+>', '', s)` with sufficient fuel. -/
def stripTags (s : List Char) : List Char := stripTagsGo s.length s

/-- A nonempty digit run in which single underscores may separate digits
(the tail of the digit part of a Python integer literal accepted by
`int(...)`). -/
def duRest : List Char → Bool
  | [] => true
  | '_' :: c :: rest => isAsciiDigit c && duRest rest
  | '_' :: [] => false
  | c :: rest => isAsciiDigit c && duRest rest

/-- Nonempty digits with optional single underscores between digits. -/
def digitsUnders : List Char → Bool
  | [] => false
  | c :: rest => isAsciiDigit c && duRest rest

/-- Whether Python `int(s)` succeeds (ASCII model): optional surrounding
whitespace, optional sign, then digits with optional single underscores. -/
def pyIntOk (l : List Char) : Bool :=
  match pyStrip l with
  | '+' :: r => digitsUnders r
  | '-' :: r => digitsUnders r
  | r => digitsUnders r

/-!
## Fragment Cleaner (`cleaner`, `filter_numerical` in main.py)

A Python dict value in a course record is a string, a list of strings, or
`None`; `PyVal` reflects that.  Each mutation step of `cleaner` can raise
(`TypeError` on `None` operands, `AttributeError` on list operands), which
the embedding surfaces as `Except.error ()`.
-/

inductive PyVal where
  | str : String → PyVal
  | list : List String → PyVal
  | none : PyVal
deriving DecidableEq, Repr

structure CourseDict where
  course : PyVal
  prereq : PyVal
  coreq : PyVal
  description : PyVal
  credit : PyVal
  hub_credit : PyVal
deriving DecidableEq, Repr

/-- The `while '  ' in s: s = s.replace('  ', ' ')` loop of `cleaner`.
Each iteration with a double space strictly shrinks the string, so
`fuel = s.length` iterations always reach a fixed point. -/
def collapseGo : Nat → List Char → List Char
  | 0, s => s
  | fuel + 1, s =>
    if isSubL [' ', ' '] s then collapseGo fuel (pyReplaceL [' ', ' '] [' '] s)
    else s

/-- The description whitespace-collapse of `cleaner` on a `String`. -/
def collapseString (s : String) : String :=
  String.mk (collapseGo s.data.length s.data)

/-- `result = ''; for char in string: try: int(char); result += char except: continue`
from `filter_numerical` (accumulator-appending scan). -/
def digitScan : List Char → List Char → List Char
  | acc, [] => acc
  | acc, c :: rest =>
    if isAsciiDigit c then digitScan (acc ++ [c]) rest else digitScan acc rest

/-- `filter_numerical` from main.py: `'var' in string.lower()` yields the
sentinel `"var"`, otherwise every digit character is kept in order. -/
def filter_numerical (s : String) : String :=
  if isSubL ['v', 'a', 'r'] (s.data.map pyToLower) then "var"
  else String.mk (digitScan [] s.data)

/-- The description pass of `cleaner`: `while '  ' in contents['description']`.
On `None` the `in` test raises `TypeError`; on a list the test is a
membership test and the loop body's `.replace` raises `AttributeError`
whenever `'  '` is a member. -/
def descPass : PyVal → Except Unit PyVal
  | PyVal.str s => Except.ok (PyVal.str (collapseString s))
  | PyVal.list l => if "  " ∈ l then Except.error () else Except.ok (PyVal.list l)
  | PyVal.none => Except.error ()

/-- The credit pass of `cleaner`: `filter_numerical(contents['credit'])`;
`.lower()` raises `AttributeError` on non-strings. -/
def creditPass : PyVal → Except Unit PyVal
  | PyVal.str s => Except.ok (PyVal.str (filter_numerical s))
  | _ => Except.error ()

/-- The label-removal pass of `cleaner` for `'Prereq:'` / `'Coreq:'`:
`if label in s: s = s.replace(label, '')`.  Note that Python
`str.replace` with no count removes every occurrence. -/
def labelPass (lab : String) : PyVal → Except Unit PyVal
  | PyVal.str s =>
    Except.ok (PyVal.str (if isSubL lab.data s.data
      then String.mk (pyReplaceL lab.data [] s.data) else s))
  | PyVal.list l => if lab ∈ l then Except.error () else Except.ok (PyVal.list l)
  | PyVal.none => Except.error ()

/-- The final normalization loop of `cleaner`, applied to every key:
`''`, `[]` and `['Part of a Hub sequence']` become `None`; other strings
are stripped and, when `int(...)` fails on them and at most one character
remains, become `None`. -/
def normFld : PyVal → PyVal
  | PyVal.str s =>
    if s = "" then PyVal.none
    else
      if pyIntOk (pyStrip s.data) then PyVal.str (String.mk (pyStrip s.data))
      else if (pyStrip s.data).length ≤ 1 then PyVal.none
      else PyVal.str (String.mk (pyStrip s.data))
  | PyVal.list l =>
    if l = [] || l = ["Part of a Hub sequence"] then PyVal.none
    else PyVal.list l
  | PyVal.none => PyVal.none

/-- `cleaner` from main.py.  The mutation passes run in source order
(description, credit, prereq, coreq), then every field runs through the
normalization loop. -/
def cleaner (c : CourseDict) : Except Unit CourseDict := do
  let d ← descPass c.description
  let cr ← creditPass c.credit
  let p ← labelPass "Prereq:" c.prereq
  let q ← labelPass "Coreq:" c.coreq
  Except.ok
    { course := normFld c.course
      prereq := normFld p
      coreq := normFld q
      description := normFld d
      credit := normFld cr
      hub_credit := normFld c.hub_credit }

/-!
## Detail Extractor and Course Crawler (`fetch_single_course`)

A fetched detail page is abstracted to the two elements the code reads:
the requirement-tag container (`ul.coursearch-result-hub-list`, kept as the
HTML text that Python `str(...)` would produce for it) and the description
container (`div.coursearch-result-content-description`, kept as its
visible text).  `Option.none` models `find` returning `None`.
-/

structure Doc where
  hubHtml : Option String
  descText : Option String
deriving DecidableEq, Repr

/-- The requirement-tag processing of `fetch_single_course`:
`str(find(...))` (which is the string `"None"` when the container is
absent), split on `'<li>'`, tag-strip and strip each fragment, drop empty
fragments, and truncate a final "pathway" entry at `'BU'`. -/
def hubProcess (h : Option String) : List String :=
  let s := match h with
    | Option.none => "None".data
    | some x => x.data
  let parts := (pySplitSep ['<', 'l', 'i', '>'] s).map fun p => pyStrip (stripTags p)
  let parts := parts.filter fun p => !p.isEmpty
  let parts :=
    match parts.getLast? with
    | Option.none => parts
    | some last =>
      if isSubL ['p', 'a', 't', 'h', 'w', 'a', 'y'] (last.map pyToLower)
      then parts.dropLast ++ [(pySplitSep ['B', 'U'] last).headD []]
      else parts
  parts.map String.mk

/-- The detail-page extraction of `fetch_single_course` applied to one
fetched document: build `hub_list`, then read `full_list[1]`, `[3]`,
`[5]`, `[6]` from the description container's split lines.  A missing
container is the `return False` path (`Except.ok Option.none`); fewer than
seven lines is an uncaught `IndexError` (`Except.error ()`). -/
def extractAndClean (course : String) (content : Doc) :
    Except Unit (Option CourseDict) :=
  let hub_list := hubProcess content.hubHtml
  match content.descText with
  | Option.none => Except.ok Option.none
  | some txt =>
    let full_list := pySplitlines txt.data
    if h : 6 < full_list.length then
      match cleaner
        { course := PyVal.str course
          prereq := PyVal.str (String.mk (full_list.get ⟨1, by omega⟩))
          coreq := PyVal.str (String.mk (full_list.get ⟨3, by omega⟩))
          description := PyVal.str (String.mk (full_list.get ⟨5, by omega⟩))
          credit := PyVal.str (String.mk (full_list.get ⟨6, by omega⟩))
          hub_credit := PyVal.list hub_list } with
      | Except.ok r => Except.ok (some r)
      | Except.error e => Except.error e
    else Except.error ()

def searchBase : String := "https://www.bu.edu/phpbin/course-search/search.php"

/-- The "all terms" detail URL of `fetch_single_course`.  The Python
source builds it with a backslash line continuation inside the f-string
literal, so one space (before the backslash) and the twelve spaces of the
next line's indentation are part of the URL. -/
def urlAllTerms (course : String) : String :=
  searchBase ++ "?page=w0&" ++ String.mk (List.replicate 13 ' ') ++
    "pagesize=10&adv=1&search_adv_all=" ++ course ++ "&yearsem_adv=*"

/-- `semester = 'FALL' if cur_datetime.month > 6 else 'SPRG'`. -/
def semesterOf (month : Nat) : String := if month > 6 then "FALL" else "SPRG"

/-- The term-scoped fallback URL.  Its f-string also holds a backslash
line continuation: one space plus sixteen spaces of indentation sit
between `pagesize=10` and `&adv=1`. -/
def urlScoped (course : String) (year month : Nat) : String :=
  searchBase ++ "?page=w0&pagesize=10" ++ String.mk (List.replicate 17 ' ') ++
    "&adv=1&search_adv_all=" ++ course ++ "&yearsem_adv=" ++
    toString year ++ "-" ++ semesterOf month

/-- Modelled from the spec: the detail endpoint format
`GET \x7bsearchBase\x7d?page=w0&pagesize=10&adv=1&search_adv_all=...&yearsem_adv=...`
as §6 of the spec writes it, with no other characters.  Used only to
compare the code's URLs against the spec's stated format. -/
def specDetailUrl (identifierQuery termFilter : String) : String :=
  searchBase ++ "?page=w0&pagesize=10&adv=1&search_adv_all=" ++
    identifierQuery ++ "&yearsem_adv=" ++ termFilter

/-- `fetch_single_course` from main.py, with the HTTP layer abstracted as
a pure map `fetch : URL → Doc` and the wall-clock date passed as
`year`/`month`.  Returns the extraction result paired with the list of
URLs fetched, in order. -/
def fetch_single_course (course : String) (year month : Nat)
    (fetch : String → Doc) : Except Unit (Option CourseDict) × List String :=
  let content := fetch (urlAllTerms course)
  if (content.descText).isNone then
    let content2 := fetch (urlScoped course year month)
    (extractAndClean course content2,
      [urlAllTerms course, urlScoped course year month])
  else
    (extractAndClean course content, [urlAllTerms course])

/-- `pool.map` over the course fetch: collect one result per identifier
in order; an uncaught exception in any worker aborts the whole map. -/
def poolMap (f : String → Except Unit (Option CourseDict)) :
    List String → Except Unit (List (Option CourseDict))
  | [] => Except.ok []
  | x :: xs =>
    match f x with
    | Except.error e => Except.error e
    | Except.ok r =>
      match poolMap f xs with
      | Except.error e => Except.error e
      | Except.ok rs => Except.ok (r :: rs)

/-- `scrape_courses` from main.py: map the course fetch over the
identifier list and keep the results that are not `False`. -/
def scrape_courses (ids : List String)
    (f : String → Except Unit (Option CourseDict)) :
    Except Unit (List CourseDict) :=
  match poolMap f ids with
  | Except.error e => Except.error e
  | Except.ok l => Except.ok (l.filterMap id)

/-!
## Listing Extractor and Branch Crawler (`fetch_single_branch`)

A listing page is abstracted to the `ul.course-feed` container: absent, or
present with its visible text and, for each child of the container, the
text of that child's `next_sibling` (`Option.none` when the sibling is
`None`).
-/

structure Feed where
  text : String
  children : List (Option String)
deriving DecidableEq, Repr

/-- `tmp.text.split(':')[0].strip().replace(' ', '').lower()`. -/
def classCode (t : String) : String :=
  String.mk ((pyReplaceL [' '] [] (pyStrip (t.data.takeWhile fun c => c ≠ ':'))).map pyToLower)

/-- The per-page identifier extraction of `fetch_single_branch`: skip
children whose sibling is `None` or has whitespace-only text, otherwise
take the class code. -/
def extractGroup (sibs : List (Option String)) : List String :=
  sibs.filterMap fun s =>
    match s with
    | Option.none => Option.none
    | some t => if (pyStrip t.data).isEmpty then Option.none else some (classCode t)

/-- `results is None or len(results.text.strip()) == 0`: the pagination
termination signal. -/
def isTermPage : Option Feed → Bool
  | Option.none => true
  | some f => (pyStrip f.text.data).isEmpty

/-- Identifiers contributed by one fetched listing page. -/
def pageIds : Option Feed → List String
  | Option.none => []
  | some f => extractGroup f.children

/-- The `for i in range(200)` pagination loop of `fetch_single_branch`,
starting at page `i` with `fuel` iterations left. -/
def branchGo (pages : Nat → Option Feed) : Nat → Nat → List String
  | 0, _ => []
  | fuel + 1, i =>
    if isTermPage (pages i) then []
    else pageIds (pages i) ++ branchGo pages fuel (i + 1)

/-- `fetch_single_branch` from main.py with the HTTP layer abstracted as
`pages : pageIndex → Option Feed`. -/
def fetch_single_branch (pages : Nat → Option Feed) : List String :=
  branchGo pages 200 0

/-- `scrape_branches` from main.py after the pool map: flatten the
per-unit identifier lists and deduplicate via `list(set(...))`. -/
def scrape_branches (branchResults : List (List String)) : List String :=
  branchResults.flatten.dedup

/-!
## Concrete fixtures used by witnesses and counterexamples
-/

/-- A record dict with all-string fields, as `fetch_single_course` builds
them: its description field is one junk character. -/
def exD : CourseDict :=
  { course := PyVal.str "cs111"
    prereq := PyVal.str ""
    coreq := PyVal.str ""
    description := PyVal.str "x"
    credit := PyVal.str "4"
    hub_credit := PyVal.list ["None"] }

/-- The output of `cleaner exD`: description and prereq/coreq have been
normalized to `None`. -/
def exD2 : CourseDict :=
  { course := PyVal.str "cs111"
    prereq := PyVal.none
    coreq := PyVal.none
    description := PyVal.none
    credit := PyVal.str "4"
    hub_credit := PyVal.list ["None"] }

/-- Mock listing pages: pages 0-2 carry one course entry each, page 3 has
no course-feed container. -/
def exPages : Nat → Option Feed := fun i =>
  if i < 3 then some { text := "x", children := [some "CS 111: Intro"] }
  else Option.none

/-- Like `exPages` up to page 3 but with a nonempty page 4, to show that
pages past the termination page are never consulted. -/
def exPages2 : Nat → Option Feed := fun i =>
  if i < 3 then some { text := "x", children := [some "CS 111: Intro"] }
  else if i = 4 then some { text := "y", children := [some "EK 125: Y"] }
  else Option.none

/-- A fetch in which every detail query resolves to a page with no
description container. -/
def exFetchC3 : String → Doc := fun _ =>
  { hubHtml := Option.none, descText := Option.none }

/-- Modelled from the spec: `stripLabel(s, label)` as §4.1 words it —
remove only the first occurrence of the label token, leaving later ones. -/
def stripLabelFirstSpec (lab : List Char) : List Char → List Char
  | [] => []
  | c :: rest =>
    match dropPref lab (c :: rest) with
    | some r => r
    | Option.none => c :: stripLabelFirstSpec lab rest


theorem dropPref_eq_some {p : List Char} :
    ∀ {s r : List Char}, dropPref p s = some r ↔ s = p ++ r := by
  induction p with
  | nil => intro s r; simp [dropPref]
  | cons a as ih =>
    intro s r
    cases s with
    | nil => simp [dropPref]
    | cons b bs =>
      simp only [dropPref]
      by_cases hab : a = b
      · subst hab
        simp [ih]
      · rw [if_neg hab]
        simp only [List.cons_append]
        constructor
        · intro h; cases h
        · intro h
          injection h with h1 _
          exact absurd h1.symm hab

theorem dropPref_append (p r : List Char) : dropPref p (p ++ r) = some r :=
  dropPref_eq_some.mpr rfl

theorem isSubL_self_append (p suf : List Char) : isSubL p (p ++ suf) = true := by
  cases p with
  | nil =>
    cases suf with
    | nil => simp [isSubL]
    | cons c r => simp [isSubL, dropPref]
  | cons x xs =>
    have h1 : (x :: xs) ++ suf = x :: (xs ++ suf) := rfl
    rw [h1]
    simp only [isSubL, Bool.or_eq_true]
    left
    rw [← h1, dropPref_append]
    rfl

theorem isSubL_intro (p : List Char) :
    ∀ (pre suf : List Char), isSubL p (pre ++ (p ++ suf)) = true := by
  intro pre
  induction pre with
  | nil => intro suf; simpa using isSubL_self_append p suf
  | cons d pre' ih =>
    intro suf
    have h1 : (d :: pre') ++ (p ++ suf) = d :: (pre' ++ (p ++ suf)) := rfl
    rw [h1]
    simp only [isSubL, Bool.or_eq_true]
    right
    exact ih suf

theorem isSubL_exists {p : List Char} :
    ∀ {s : List Char}, isSubL p s = true → ∃ pre suf, s = pre ++ p ++ suf := by
  intro s
  induction s with
  | nil =>
    intro h
    simp [isSubL, List.isEmpty_iff] at h
    exact ⟨[], [], by simp [h]⟩
  | cons c rest ih =>
    intro h
    simp only [isSubL, Bool.or_eq_true] at h
    rcases h with h | h
    · obtain ⟨u, hu⟩ := Option.isSome_iff_exists.mp h
      exact ⟨[], u, by simpa using dropPref_eq_some.mp hu⟩
    · obtain ⟨pre, suf, hps⟩ := ih h
      exact ⟨c :: pre, suf, by simp [hps]⟩

theorem pyReplaceGo_spaces_length :
    ∀ (fuel : Nat) (s : List Char),
      (pyReplaceGo [' ', ' '] [' '] fuel s).length ≤ s.length := by
  intro fuel
  induction fuel with
  | zero => intro s; cases s <;> simp [pyReplaceGo]
  | succ fuel ih =>
    intro s
    cases s with
    | nil => simp [pyReplaceGo]
    | cons c rest =>
      simp only [pyReplaceGo]
      cases hmatch : dropPref [' ', ' '] (c :: rest) with
      | some s2 =>
        have hs : c :: rest = [' ', ' '] ++ s2 := dropPref_eq_some.mp hmatch
        have h2 := ih s2
        have hlen : rest.length = s2.length + 1 := by
          have := congrArg List.length hs
          simpa using this
        simp only [List.length_append, List.length_cons, List.length_nil, hlen]
        omega
      | none =>
        have h2 := ih rest
        simp only [List.length_cons]
        omega

theorem pyReplaceGo_spaces_length_lt :
    ∀ (fuel : Nat) (s : List Char), s.length ≤ fuel →
      isSubL [' ', ' '] s = true →
      (pyReplaceGo [' ', ' '] [' '] fuel s).length < s.length := by
  intro fuel
  induction fuel with
  | zero =>
    intro s hlen hsub
    have : s = [] := List.length_eq_zero.mp (Nat.le_zero.mp hlen)
    subst this
    simp [isSubL] at hsub
  | succ fuel ih =>
    intro s hlen hsub
    cases s with
    | nil => simp [isSubL] at hsub
    | cons c rest =>
      simp only [pyReplaceGo]
      cases hmatch : dropPref [' ', ' '] (c :: rest) with
      | some s2 =>
        have hs : c :: rest = [' ', ' '] ++ s2 := dropPref_eq_some.mp hmatch
        have hle := pyReplaceGo_spaces_length fuel s2
        have hlen2 : rest.length = s2.length + 1 := by
          have := congrArg List.length hs
          simpa using this
        simp only [List.length_append, List.length_cons, List.length_nil, hlen2]
        omega
      | none =>
        simp only [isSubL, hmatch, Option.isSome_none, Bool.false_or] at hsub
        have h3 := ih rest (by simp only [List.length_cons] at hlen; omega) hsub
        simp only [List.length_cons]
        omega

theorem collapseGo_noDouble :
    ∀ (fuel : Nat) (s : List Char), s.length ≤ fuel →
      isSubL [' ', ' '] (collapseGo fuel s) = false := by
  intro fuel
  induction fuel with
  | zero =>
    intro s hlen
    have : s = [] := List.length_eq_zero.mp (Nat.le_zero.mp hlen)
    subst this
    simp [collapseGo, isSubL]
  | succ fuel ih =>
    intro s hlen
    simp only [collapseGo]
    by_cases h : isSubL [' ', ' '] s = true
    · rw [if_pos h]
      apply ih
      have := pyReplaceGo_spaces_length_lt s.length s (le_refl _) h
      simp only [pyReplaceL]
      omega
    · rw [if_neg h]
      exact Bool.eq_false_iff.mpr h

theorem collapseGo_of_noDouble (fuel : Nat) (s : List Char)
    (h : isSubL [' ', ' '] s = false) : collapseGo fuel s = s := by
  cases fuel with
  | zero => rfl
  | succ fuel => simp [collapseGo, h]

theorem digitScan_eq_filter :
    ∀ (acc l : List Char), digitScan acc l = acc ++ l.filter isAsciiDigit := by
  intro acc l
  induction l generalizing acc with
  | nil => simp [digitScan]
  | cons c rest ih =>
    simp only [digitScan]
    by_cases h : isAsciiDigit c = true
    · rw [if_pos h, ih, List.filter_cons_of_pos h]
      simp
    · rw [if_neg h, ih, List.filter_cons_of_neg (by simpa using h)]

theorem pyToLower_of_digit (c : Char) (h : isAsciiDigit c = true) :
    pyToLower c = c := by
  unfold pyToLower
  rw [if_neg]
  simp only [isAsciiDigit, Bool.and_eq_true, decide_eq_true_eq] at h
  simp only [Bool.and_eq_true, decide_eq_true_eq, not_and]
  intro hA
  exact absurd (le_trans hA h.2) (by decide)

theorem no_var_in_digits (l : List Char) (hl : ∀ c ∈ l, isAsciiDigit c = true) :
    isSubL ['v', 'a', 'r'] (l.map pyToLower) = false := by
  by_contra h
  rw [Bool.not_eq_false] at h
  obtain ⟨pre, suf, hs⟩ := isSubL_exists h
  have hv : 'v' ∈ l.map pyToLower := by
    rw [hs]
    simp
  obtain ⟨c, hc, hcv⟩ := List.mem_map.mp hv
  rw [pyToLower_of_digit c (hl c hc)] at hcv
  subst hcv
  have := hl 'v' hc
  simp [isAsciiDigit] at this

theorem filter_numerical_idem (s : String) :
    filter_numerical (filter_numerical s) = filter_numerical s := by
  by_cases h : isSubL ['v', 'a', 'r'] (s.data.map pyToLower) = true
  · have hinner : filter_numerical s = "var" := by
      unfold filter_numerical
      rw [if_pos h]
    rw [hinner]
    decide
  · have hinner : filter_numerical s = String.mk (digitScan [] s.data) := by
      unfold filter_numerical
      rw [if_neg h]
    rw [hinner]
    have hdata : (String.mk (digitScan [] s.data)).data = s.data.filter isAsciiDigit := by
      simp [digitScan_eq_filter]
    have hall : ∀ c ∈ s.data.filter isAsciiDigit, isAsciiDigit c = true := by
      intro c hc
      exact (List.mem_filter.mp hc).2
    unfold filter_numerical
    rw [hdata]
    rw [if_neg (by rw [no_var_in_digits _ hall]; simp)]
    congr 1
    rw [digitScan_eq_filter, digitScan_eq_filter]
    simp only [List.nil_append]
    exact List.filter_eq_self.mpr hall

theorem collapseString_idem (s : String) :
    collapseString (collapseString s) = collapseString s := by
  unfold collapseString
  congr 1
  apply collapseGo_of_noDouble
  exact collapseGo_noDouble s.data.length s.data (le_refl _)

theorem collapseString_noDouble (s : String) :
    isSubL [' ', ' '] (collapseString s).data = false :=
  collapseGo_noDouble s.data.length s.data (le_refl _)

theorem isSubL_mem {p s : List Char} (h : isSubL p s = true) :
    ∀ c ∈ p, c ∈ s := by
  intro c hc
  obtain ⟨pre, suf, hs⟩ := isSubL_exists h
  rw [hs]
  simp [hc]

theorem pyReplaceGo_prereq_nomatch :
    ∀ (fuel : Nat) (s : List Char), ':' ∉ s →
      pyReplaceGo (String.data "Prereq:") [] fuel s = s := by
  intro fuel
  induction fuel with
  | zero => intro s _; cases s <;> rfl
  | succ fuel ih =>
    intro s hs
    cases s with
    | nil => rfl
    | cons c rest =>
      simp only [pyReplaceGo]
      cases hmatch : dropPref (String.data "Prereq:") (c :: rest) with
      | some s2 =>
        have heq : c :: rest = (String.data "Prereq:") ++ s2 :=
          dropPref_eq_some.mp hmatch
        exact absurd (by rw [heq]; simp [String.data] : ':' ∈ c :: rest) hs
      | none =>
        have : ':' ∉ rest := fun hr => hs (List.mem_cons_of_mem c hr)
        rw [ih rest this]

theorem colon_not_in_take :
    ∀ (a : List Char) (k : Nat) (r : List Char), k ≤ 6 → ':' ∉ a →
      ':' ∉ List.take k (a ++ (String.data "Prereq:" ++ r)) := by
  intro a
  induction a with
  | nil =>
    intro k r hk _
    simp only [List.nil_append]
    rw [List.take_append_eq_append_take]
    have h7 : (String.data "Prereq:").length = 7 := rfl
    rw [h7, Nat.sub_eq_zero_of_le (by omega), List.take_zero, List.append_nil]
    interval_cases k <;> decide
  | cons x a' ih =>
    intro k r hk hx
    cases k with
    | zero => simp
    | succ k' =>
      have h1 : (x :: a') ++ (String.data "Prereq:" ++ r)
          = x :: (a' ++ (String.data "Prereq:" ++ r)) := rfl
      rw [h1, List.take_succ_cons]
      intro hmem
      rcases List.mem_cons.mp hmem with h | h
      · exact hx (h ▸ List.mem_cons_self x a')
      · exact ih k' r (by omega) (fun hr => hx (List.mem_cons_of_mem x hr)) h

theorem dropPref_prereq_cons_none (x : Char) (a' r : List Char)
    (hx : ':' ∉ (x :: a')) :
    dropPref (String.data "Prereq:") (x :: (a' ++ (String.data "Prereq:" ++ r)))
      = Option.none := by
  cases hmatch : dropPref (String.data "Prereq:") (x :: (a' ++ (String.data "Prereq:" ++ r))) with
  | none => rfl
  | some t =>
    exfalso
    have heq := dropPref_eq_some.mp hmatch
    have htake : List.take 7 (x :: (a' ++ (String.data "Prereq:" ++ r)))
        = String.data "Prereq:" := by
      rw [heq]
      exact List.take_left (String.data "Prereq:") t
    have hcolon : ':' ∈ List.take 7 (x :: (a' ++ (String.data "Prereq:" ++ r))) := by
      rw [htake]; decide
    rw [List.take_succ_cons] at hcolon
    rcases List.mem_cons.mp hcolon with h | h
    · exact hx (h ▸ List.mem_cons_self x a')
    · exact colon_not_in_take a' 6 r (by omega)
        (fun hr => hx (List.mem_cons_of_mem x hr)) h

theorem pyReplaceGo_prereq_consume :
    ∀ (a : List Char) (fuel : Nat) (r : List Char),
      ':' ∉ a → a.length + 1 ≤ fuel →
      pyReplaceGo (String.data "Prereq:") [] fuel (a ++ (String.data "Prereq:" ++ r))
        = a ++ pyReplaceGo (String.data "Prereq:") [] (fuel - (a.length + 1)) r := by
  intro a
  induction a with
  | nil =>
    intro fuel r _ hfuel
    cases fuel with
    | zero => omega
    | succ f =>
      simp only [List.nil_append, List.length_nil]
      have hshape : String.data "Prereq:" ++ r = 'P' :: (String.data "rereq:" ++ r) := rfl
      rw [hshape]
      simp only [pyReplaceGo]
      rw [← hshape, dropPref_append]
      simp
  | cons x a' ih =>
    intro fuel r hx hfuel
    cases fuel with
    | zero => simp at hfuel
    | succ f =>
      have h1 : (x :: a') ++ (String.data "Prereq:" ++ r)
          = x :: (a' ++ (String.data "Prereq:" ++ r)) := rfl
      rw [h1]
      simp only [pyReplaceGo]
      rw [dropPref_prereq_cons_none x a' r hx]
      have ha' : ':' ∉ a' := fun hr => hx (List.mem_cons_of_mem x hr)
      have hflen : a'.length + 1 ≤ f := by
        simp only [List.length_cons] at hfuel; omega
      rw [ih f r ha' hflen]
      simp only [List.length_cons, List.cons_append, Nat.succ_sub_succ]

theorem branchGo_spec (pages : Nat → Option Feed) :
    ∀ (m fuel i : Nat), m ≤ fuel →
      (∀ j, j < m → isTermPage (pages (i + j)) = false) →
      (m < fuel → isTermPage (pages (i + m)) = true) →
      branchGo pages fuel i
        = ((List.range m).map fun j => pageIds (pages (i + j))).flatten := by
  intro m
  induction m with
  | zero =>
    intro fuel i _ _ hterm
    cases fuel with
    | zero => simp [branchGo]
    | succ f =>
      have ht := hterm (Nat.succ_pos f)
      simp only [Nat.add_zero] at ht
      simp [branchGo, ht]
  | succ m' ih =>
    intro fuel i hle hprev hterm
    cases fuel with
    | zero => omega
    | succ f =>
      have h0 : isTermPage (pages (i + 0)) = false := hprev 0 (Nat.succ_pos m')
      simp only [Nat.add_zero] at h0
      simp only [branchGo, h0, Bool.false_eq_true, if_false]
      have ihr := ih f (i + 1) (by omega)
        (fun j hj => by
          have := hprev (j + 1) (by omega)
          simpa [Nat.add_assoc, Nat.add_comm 1 j] using this)
        (fun hf => by
          have := hterm (by omega)
          simpa [Nat.add_assoc, Nat.add_comm 1 m'] using this)
      have hmap : ((List.range m').map Nat.succ).map (fun j => pageIds (pages (i + j)))
          = (List.range m').map fun j => pageIds (pages (i + 1 + j)) := by
        rw [List.map_map]
        apply List.map_congr_left
        intro j _
        have hj : i + Nat.succ j = i + 1 + j := by omega
        simp [Function.comp, hj]
      rw [ihr, List.range_succ_eq_map]
      simp only [List.map_cons, List.flatten_cons, Nat.add_zero]
      rw [hmap]

/-- C4 (amended): `filter_numerical` and the description whitespace
collapse are total and idempotent, the collapsed result has no two
consecutive spaces, and `cleaner` is total on dicts whose mutated fields
are strings — but `cleaner` itself is not idempotent (see the
counterexample). -/
theorem cleaner_functions_amended :
    (∀ s : String, collapseString (collapseString s) = collapseString s)
    ∧ (∀ s : String, isSubL [' ', ' '] (collapseString s).data = false)
    ∧ (∀ s : String, filter_numerical (filter_numerical s) = filter_numerical s)
    ∧ (∀ d : CourseDict,
        (∃ s1, d.description = PyVal.str s1) → (∃ s2, d.credit = PyVal.str s2) →
        (∃ s3, d.prereq = PyVal.str s3) → (∃ s4, d.coreq = PyVal.str s4) →
        ∃ r, cleaner d = Except.ok r) := by
  refine ⟨collapseString_idem, collapseString_noDouble, filter_numerical_idem, ?_⟩
  intro d h1 h2 h3 h4
  obtain ⟨s1, hd⟩ := h1
  obtain ⟨s2, hc⟩ := h2
  obtain ⟨s3, hp⟩ := h3
  obtain ⟨s4, hq⟩ := h4
  simp only [cleaner, hd, hc, hp, hq, descPass, creditPass, labelPass,
    Except.bind, Bind.bind]
  exact ⟨_, rfl⟩

theorem cleaner_functions_amended_witness :
    ∃ r, cleaner exD = Except.ok r :=
  cleaner_functions_amended.2.2.2 exD ⟨"x", rfl⟩ ⟨"4", rfl⟩ ⟨"", rfl⟩ ⟨"", rfl⟩

/-- C4 (counterexample): `cleaner` maps `exD` to `exD2`, whose
description field is `None`; a second application of `cleaner` then
raises (`'  ' in None` is a `TypeError`), so applying twice does not
yield the same result as applying once. -/
theorem cleaner_not_idempotent :
    cleaner exD = Except.ok exD2
    ∧ cleaner exD2 = Except.error ()
    ∧ (Except.ok exD2 : Except Unit CourseDict) ≠ Except.error () :=
  ⟨rfl, rfl, fun h => Except.noConfusion h⟩

/-- C5: `filter_numerical` returns the sentinel `"var"` exactly when the
lowercased input contains `"var"`, and otherwise the digit characters of
the input in order; the spec's three concrete examples hold, and an empty
extraction is normalized to absent by the cleaner. -/
theorem extractNumericCredit_correct :
    (∀ s : String, isSubL ['v', 'a', 'r'] (s.data.map pyToLower) = true →
        filter_numerical s = "var")
    ∧ (∀ s : String, isSubL ['v', 'a', 'r'] (s.data.map pyToLower) = false →
        filter_numerical s = String.mk (s.data.filter isAsciiDigit))
    ∧ filter_numerical "4 credits" = "4"
    ∧ filter_numerical "Variable, 1-4 cr" = "var"
    ∧ filter_numerical "" = ""
    ∧ normFld (PyVal.str (filter_numerical "")) = PyVal.none := by
  refine ⟨?_, ?_, rfl, rfl, rfl, rfl⟩
  · intro s h
    unfold filter_numerical
    rw [if_pos h]
  · intro s h
    unfold filter_numerical
    rw [if_neg (by rw [h]; simp)]
    congr 1
    rw [digitScan_eq_filter]
    simp

theorem extractNumericCredit_correct_witness :
    filter_numerical "no4var5" = "var"
    ∧ filter_numerical "a1b2c3" = String.mk ("a1b2c3".data.filter isAsciiDigit) :=
  ⟨extractNumericCredit_correct.1 "no4var5" (by decide),
   extractNumericCredit_correct.2.1 "a1b2c3" (by decide)⟩

/-- C6 (amended): the normalization loop maps `""`, `[]` and
`["Part of a Hub sequence"]` to absent and strips strings; a stripped
residue of length at most one becomes absent only when `int(...)` fails
on it — residues that parse as integers are kept; the residual-length
rule does not apply to list values. -/
theorem normalizeField_amended :
    normFld (PyVal.str "") = PyVal.none
    ∧ normFld (PyVal.list []) = PyVal.none
    ∧ normFld (PyVal.list ["Part of a Hub sequence"]) = PyVal.none
    ∧ (∀ s : String, s ≠ "" → pyIntOk (pyStrip s.data) = false →
        (pyStrip s.data).length ≤ 1 → normFld (PyVal.str s) = PyVal.none)
    ∧ (∀ s : String, s ≠ "" → pyIntOk (pyStrip s.data) = false →
        2 ≤ (pyStrip s.data).length →
        normFld (PyVal.str s) = PyVal.str (String.mk (pyStrip s.data)))
    ∧ (∀ s : String, s ≠ "" → pyIntOk (pyStrip s.data) = true →
        normFld (PyVal.str s) = PyVal.str (String.mk (pyStrip s.data)))
    ∧ (∀ l : List String, l ≠ [] → l ≠ ["Part of a Hub sequence"] →
        normFld (PyVal.list l) = PyVal.list l) := by
  refine ⟨rfl, rfl, rfl, ?_, ?_, ?_, ?_⟩
  · intro s hne hint hlen
    simp only [normFld, if_neg hne, hint, Bool.false_eq_true, if_false, if_pos hlen]
  · intro s hne hint hlen
    simp only [normFld, if_neg hne, hint, Bool.false_eq_true, if_false,
      if_neg (by omega : ¬(pyStrip s.data).length ≤ 1)]
  · intro s hne hint
    simp only [normFld, if_neg hne, hint, if_true]
  · intro l hne hhub
    simp only [normFld]
    rw [if_neg]
    simp [hne, hhub]

theorem normalizeField_amended_witness :
    normFld (PyVal.str "  x  ") = PyVal.none
    ∧ normFld (PyVal.str " ab ") = PyVal.str (String.mk (pyStrip " ab ".data))
    ∧ normFld (PyVal.str " 4 ") = PyVal.str (String.mk (pyStrip " 4 ".data))
    ∧ normFld (PyVal.list ["None"]) = PyVal.list ["None"] :=
  ⟨normalizeField_amended.2.2.2.1 "  x  " (by decide) (by decide) (by decide),
   normalizeField_amended.2.2.2.2.1 " ab " (by decide) (by decide) (by decide),
   normalizeField_amended.2.2.2.2.2.1 " 4 " (by decide) (by decide),
   normalizeField_amended.2.2.2.2.2.2 ["None"] (by decide) (by decide)⟩

/-- C6 (counterexample): the residual `" 4 "` strips to the one-character
string `"4"`, which `int(...)` accepts, so the code keeps it — the claim
that every residual of length at most one becomes absent is false. -/
theorem normalizeField_counterexample :
    normFld (PyVal.str " 4 ") = PyVal.str "4"
    ∧ (pyStrip (String.data " 4 ")).length = 1
    ∧ normFld (PyVal.str " 4 ") ≠ PyVal.none := by
  refine ⟨rfl, rfl, ?_⟩
  decide

/-- C7 (counterexample): on `"Prereq: A Prereq: B"` the code removes both
occurrences of the label (Python `str.replace` has no count), while the
spec's remove-first-occurrence reading leaves the second in place. -/
theorem stripLabel_counterexample :
    labelPass "Prereq:" (PyVal.str "Prereq: A Prereq: B")
      = Except.ok (PyVal.str " A  B")
    ∧ String.mk (stripLabelFirstSpec (String.data "Prereq:")
        (String.data "Prereq: A Prereq: B")) = " A Prereq: B"
    ∧ (" A  B" : String) ≠ " A Prereq: B" := by
  refine ⟨rfl, rfl, ?_⟩
  decide

/-- C7 (amended): the label pass removes every left-to-right,
non-overlapping occurrence of the token, not only the first: on a string
of the shape `a ++ "Prereq:" ++ b ++ "Prereq:" ++ c` with colon-free
`a`, `b`, `c`, both occurrences are removed. -/
theorem stripLabel_amended (a b c : List Char)
    (ha : ':' ∉ a) (hb : ':' ∉ b) (hc : ':' ∉ c) :
    labelPass "Prereq:" (PyVal.str (String.mk
        (a ++ (String.data "Prereq:" ++ (b ++ (String.data "Prereq:" ++ c))))))
      = Except.ok (PyVal.str (String.mk (a ++ (b ++ c)))) := by
  have hsub : isSubL (String.data "Prereq:")
      (a ++ (String.data "Prereq:" ++ (b ++ (String.data "Prereq:" ++ c)))) = true :=
    isSubL_intro (String.data "Prereq:") a (b ++ (String.data "Prereq:" ++ c))
  have hdata : (String.mk
      (a ++ (String.data "Prereq:" ++ (b ++ (String.data "Prereq:" ++ c))))).data
      = a ++ (String.data "Prereq:" ++ (b ++ (String.data "Prereq:" ++ c))) := rfl
  simp only [labelPass, hdata, hsub, if_true]
  have h7 : (String.data "Prereq:").length = 7 := rfl
  have hlen : (a ++ (String.data "Prereq:" ++ (b ++ (String.data "Prereq:" ++ c)))).length
      = a.length + (7 + (b.length + (7 + c.length))) := by
    simp only [List.length_append, h7]
  unfold pyReplaceL
  rw [pyReplaceGo_prereq_consume a _ _ ha (by rw [hlen]; omega)]
  rw [pyReplaceGo_prereq_consume b _ _ hb (by rw [hlen]; omega)]
  rw [pyReplaceGo_prereq_nomatch _ c hc]

theorem stripLabel_amended_witness :
    labelPass "Prereq:" (PyVal.str (String.mk
        (['x'] ++ (String.data "Prereq:" ++ (['y'] ++ (String.data "Prereq:" ++ ['z']))))))
      = Except.ok (PyVal.str (String.mk (['x'] ++ (['y'] ++ ['z'])))) :=
  stripLabel_amended ['x'] ['y'] ['z'] (by decide) (by decide) (by decide)

/-- C8: after phase 1, `scrape_branches` hands phase 2 a duplicate-free
identifier list containing exactly the identifiers of the per-unit
results; in the spec's two-unit example `cs111` occurs exactly once, so
exactly one course fetch is performed for it. -/
theorem scrape_branches_dedup :
    (∀ rs : List (List String),
      (scrape_branches rs).Nodup
      ∧ (∀ x : String, (scrape_branches rs).count x ≤ 1)
      ∧ (∀ x : String, x ∈ scrape_branches rs ↔ x ∈ rs.flatten))
    ∧ (scrape_branches [["cs111", "cs112"], ["cs111"]]).count "cs111" = 1 := by
  constructor
  · intro rs
    refine ⟨List.nodup_dedup _, ?_, ?_⟩
    · intro x
      exact List.nodup_iff_count_le_one.mp (List.nodup_dedup _) x
    · intro x
      exact List.mem_dedup
  · decide

/-- Any resolved detail page with at most six visible lines makes the
extraction raise (`full_list[6]` is out of range). -/
theorem extract_short_lines_error (course txt : String)
    (hlen : (pySplitlines txt.data).length ≤ 6) :
    extractAndClean course { hubHtml := Option.none, descText := some txt }
      = Except.error () := by
  simp only [extractAndClean]
  rw [dif_neg (by omega)]

/-- C1: on a detail page whose description container is present but whose
visible text has fewer lines than the fixed offsets 1, 3, 5, 6 require
(here: the one-line text "No courses found"), `fetch_single_course`'s
extraction raises an uncaught `IndexError` (modelled `Except.error ()`)
instead of treating the page as NotFound and dropping the course. -/
theorem malformed_detail_raises :
    extractAndClean "cs111"
      { hubHtml := Option.none, descText := some "No courses found" }
      = Except.error ()
    ∧ (pySplitlines (String.data "No courses found")).length = 1 :=
  ⟨rfl, rfl⟩

/-- C10: when a detail page resolves (has a description container with
at least seven lines) but has no requirement-tag list container,
`str(None)` makes the hub list `["None"]`, the cleaner keeps it, and the
produced record's requirement-tag field is the literal singleton
`["None"]`. -/
theorem hub_absent_literal_None (course txt : String)
    (h : 6 < (pySplitlines txt.data).length) :
    ∃ r, extractAndClean course { hubHtml := Option.none, descText := some txt }
        = Except.ok (some r)
      ∧ r.hub_credit = PyVal.list ["None"] := by
  simp only [extractAndClean]
  rw [dif_pos h]
  have hhub : hubProcess Option.none = ["None"] := rfl
  simp only [hhub, cleaner, descPass, creditPass, labelPass, Except.bind, Bind.bind]
  exact ⟨_, rfl, rfl⟩

theorem hub_absent_literal_None_witness :
    ∃ r, extractAndClean "cs111"
        { hubHtml := Option.none, descText := some "a\nb\nc\nd\ne\nf\ng" }
        = Except.ok (some r)
      ∧ r.hub_credit = PyVal.list ["None"] :=
  hub_absent_literal_None "cs111" "a\nb\nc\nd\ne\nf\ng" (by decide)

/-- C2: if the pages of a unit are non-terminating up to `k` and page `k`
is the first terminating page (or the ceiling `k = 200` is reached with
no terminating page), `fetch_single_branch` returns exactly the
identifiers of pages `0..k-1` in order, and its result does not depend
on any page after `k`. -/
theorem fetch_single_branch_correct (pages : Nat → Option Feed) (k : Nat)
    (hk : k ≤ 200)
    (hterm : k < 200 → isTermPage (pages k) = true)
    (hprev : ∀ j, j < k → isTermPage (pages j) = false) :
    fetch_single_branch pages
      = ((List.range k).map fun j => pageIds (pages j)).flatten
    ∧ ∀ pages2 : Nat → Option Feed, (∀ j, j ≤ k → pages2 j = pages j) →
        fetch_single_branch pages2 = fetch_single_branch pages := by
  have hmain : fetch_single_branch pages
      = ((List.range k).map fun j => pageIds (pages j)).flatten := by
    unfold fetch_single_branch
    have := branchGo_spec pages k 200 0 hk
      (fun j hj => by simpa using hprev j hj)
      (fun hf => by simpa using hterm hf)
    simpa using this
  refine ⟨hmain, ?_⟩
  intro pages2 hagree
  have hmain2 : fetch_single_branch pages2
      = ((List.range k).map fun j => pageIds (pages2 j)).flatten := by
    unfold fetch_single_branch
    have := branchGo_spec pages2 k 200 0 hk
      (fun j hj => by
        rw [Nat.zero_add, hagree j (le_of_lt hj)]
        exact hprev j hj)
      (fun hf => by
        rw [Nat.zero_add, hagree k (le_refl k)]
        exact hterm hf)
    simpa using this
  rw [hmain, hmain2]
  congr 1
  apply List.map_congr_left
  intro j hj
  rw [hagree j (le_of_lt (by simpa using List.mem_range.mp hj))]

theorem fetch_single_branch_correct_witness :
    fetch_single_branch exPages = ["cs111", "cs111", "cs111"]
    ∧ fetch_single_branch exPages2 = fetch_single_branch exPages := by
  have h := fetch_single_branch_correct exPages 3 (by omega)
    (fun _ => by decide) (by decide)
  exact ⟨h.1.trans (by decide), h.2 exPages2 (by decide)⟩

/-- C3: when the "all terms" query yields no description container, the
course crawler performs exactly one retry, against the term-scoped URL of
the current year and semester, and builds its result from that response;
when the retry also has no description container, the course is dropped
(`False`), `scrape_courses` filters it out, and no fault is raised; the
term is Fall for month > 6 and Spring otherwise. -/
theorem fallback_protocol (course : String) (year month : Nat)
    (fetch : String → Doc)
    (h1 : (fetch (urlAllTerms course)).descText = Option.none) :
    fetch_single_course course year month fetch
      = (extractAndClean course (fetch (urlScoped course year month)),
         [urlAllTerms course, urlScoped course year month])
    ∧ ((fetch (urlScoped course year month)).descText = Option.none →
        (fetch_single_course course year month fetch).1 = Except.ok Option.none
        ∧ scrape_courses [course]
            (fun x => (fetch_single_course x year month fetch).1) = Except.ok [])
    ∧ (month > 6 → semesterOf month = "FALL")
    ∧ (¬month > 6 → semesterOf month = "SPRG") := by
  have hfirst : fetch_single_course course year month fetch
      = (extractAndClean course (fetch (urlScoped course year month)),
         [urlAllTerms course, urlScoped course year month]) := by
    unfold fetch_single_course
    simp only [h1, Option.isNone_none, if_true]
  refine ⟨hfirst, ?_, ?_, ?_⟩
  · intro h2
    have hdrop : (fetch_single_course course year month fetch).1
        = Except.ok Option.none := by
      rw [hfirst]
      simp only [extractAndClean]
      rw [h2]
    refine ⟨hdrop, ?_⟩
    simp only [scrape_courses, poolMap, hdrop]
    rfl
  · intro h
    simp [semesterOf, h]
  · intro h
    simp [semesterOf, h]

theorem fallback_protocol_witness :
    (fetch_single_course "cs111" 2026 10 exFetchC3).1 = Except.ok Option.none
    ∧ scrape_courses ["cs111"]
        (fun x => (fetch_single_course x 2026 10 exFetchC3).1) = Except.ok [] :=
  (fallback_protocol "cs111" 2026 10 exFetchC3 rfl).2.1 rfl

theorem strDataAppend (a b : String) : (a ++ b).data = a.data ++ b.data := rfl

theorem strMkOfDataEq (l : List Char) (t : String) (h : l = t.data) :
    String.mk l = t := by rw [h]

theorem filter_nonspace_of_not_mem (l : List Char) (hl : ' ' ∉ l) :
    l.filter (fun ch => ch != ' ') = l := by
  apply List.filter_eq_self.mpr
  intro a ha
  rw [bne_iff_ne]
  exact fun h => hl (h ▸ ha)

/-- C9 (counterexample): the URL the course crawler fetches is not the
spec's endpoint format — it embeds literal space runs (the f-string
backslash line continuations of main.py). -/
theorem detailUrl_whitespace_counterexample :
    urlAllTerms "cs111" ≠ specDetailUrl "cs111" "*"
    ∧ ' ' ∈ (urlAllTerms "cs111").data
    ∧ ' ' ∈ (urlScoped "cs111" 2026 10).data := by
  refine ⟨by decide, by decide, by decide⟩

/-- C9 (amended): the fetched URLs equal the spec's detail endpoint
format except for two fixed runs of embedded spaces (13 after `page=w0&`
in the all-terms query, 17 after `pagesize=10` in the term-scoped query);
deleting the space characters recovers exactly the spec's format, with
`termFilter = *` or `{year}-{FALL|SPRG}`. -/
theorem detailUrl_amended (course : String) (year month : Nat)
    (hc : ' ' ∉ course.data) (hy : ' ' ∉ (toString year).data) :
    String.mk ((urlAllTerms course).data.filter fun ch => ch != ' ')
      = specDetailUrl course "*"
    ∧ String.mk ((urlScoped course year month).data.filter fun ch => ch != ' ')
      = specDetailUrl course (toString year ++ "-" ++ semesterOf month) := by
  have hcf := filter_nonspace_of_not_mem course.data hc
  have hyf := filter_nonspace_of_not_mem (toString year).data hy
  have hsemf : (semesterOf month).data.filter (fun ch => ch != ' ')
      = (semesterOf month).data := by
    unfold semesterOf
    split <;> decide
  constructor
  · apply strMkOfDataEq
    simp [urlAllTerms, specDetailUrl, strDataAppend, List.filter_append,
      List.append_assoc, hcf]
    decide
  · apply strMkOfDataEq
    simp [urlScoped, specDetailUrl, strDataAppend, List.filter_append,
      List.append_assoc, hcf, hyf, hsemf]
    decide

theorem detailUrl_amended_witness :
    String.mk ((urlAllTerms "cs111").data.filter fun ch => ch != ' ')
      = specDetailUrl "cs111" "*"
    ∧ String.mk ((urlScoped "cs111" 2026 3).data.filter fun ch => ch != ' ')
      = specDetailUrl "cs111" (toString 2026 ++ "-" ++ semesterOf 3) :=
  detailUrl_amended "cs111" 2026 3 (by decide) (by decide)
